import Mathlib

set_option maxRecDepth 100000

/-!
Shallow embedding of the FrameworkGPT repository core: the paragraph-aware
overlapping chunker and Supabase storage trace of `index_documents.py`
(`DocumentProcessor._chunk_document`, `DocumentProcessor._store_in_supabase`)
and the retrieval-augmented query pipeline of `rag_engine.py`
(`RAGEngine.retrieve_documents`, `RAGEngine.generate_response`,
`RAGEngine.format_sources`, `RAGEngine.query`).

Python strings are modelled as `List Char` (one element per code point, so
`len`, slicing and concatenation translate directly).  The external services
(OpenAI embeddings, Supabase similarity search, chat completion) are modelled
as fallible functions `... → Except Str ...` bundled in a `Services`
structure; a raised Python exception is an `Except.error` carrying the
exception message, and the `try/except` blocks of the source become `match`
on those `Except` values.  Embedding vectors never influence control flow in
the source, so their numeric content is opaque here (`Vec`).
-/

/-- Python strings, one `Char` per code point. -/
abbrev Str := List Char

/-- The characters Python `str.strip()` / `str.split()` treat as whitespace
(ASCII part, which is all the source data contains). -/
def pySpace (c : Char) : Bool :=
  c = ' ' || c = '\t' || c = '\n' || c = '\r' || c = '\x0b' || c = '\x0c'

/-- Python `s.lstrip()` (left half of `s.strip()`). -/
def lstrip (s : Str) : Str := s.dropWhile pySpace

/-- Python `s.rstrip()` (right half of `s.strip()`). -/
def rstrip (s : Str) : Str := (s.reverse.dropWhile pySpace).reverse

/-- Python `s.strip()`. -/
def pyStrip (s : Str) : Str := rstrip (lstrip s)

/-- Python `s.split("\n\n")`: non-overlapping left-to-right matches of the
two-character separator, keeping empty pieces (`"".split("\n\n") == [""]`). -/
def splitSep : Str → List Str
  | '\n' :: '\n' :: rest => [] :: splitSep rest
  | c :: rest =>
    match splitSep rest with
    | [] => [[c]]
    | r :: rs => (c :: r) :: rs
  | [] => [[]]

/-- `(l.dropWhile p).length ≤ l.length` (helper for termination proofs). -/
theorem length_dropWhile_le (p : α → Bool) (l : List α) :
    (l.dropWhile p).length ≤ l.length := by
  induction l with
  | nil => simp
  | cons a t ih =>
    simp only [List.dropWhile_cons]
    split
    · exact Nat.le_trans ih (Nat.le_succ _)
    · simp

/-- Python `s.split()` with no argument: maximal runs of non-whitespace
characters, with no empty words. -/
def pySplitWs : Str → List Str
  | [] => []
  | c :: cs =>
    if pySpace c then pySplitWs cs
    else (c :: cs.takeWhile (fun x => !pySpace x)) ::
      pySplitWs (cs.dropWhile (fun x => !pySpace x))
termination_by s => s.length
decreasing_by
  · simp only [List.length_cons]; omega
  · simp only [List.length_cons]
    exact Nat.lt_succ_of_le (length_dropWhile_le _ _)

/-- Python `sep.join(pieces)`. -/
def joinWith (sep : Str) : List Str → Str
  | [] => []
  | [w] => w
  | w :: ws => w ++ sep ++ joinWith sep ws

/-- Python `l[-n:]`: the last `n` elements (all of them when `l` is shorter). -/
def lastN (n : Nat) (l : List α) : List α := l.drop (l.length - n)

/-- Python `s.lower()` (ASCII case mapping, which is all the source uses). -/
def lowerStr (s : Str) : Str := s.map Char.toLower

/-- Document / chunk metadata mapping (opaque key-value pairs). -/
abbrev Meta := List (Str × Str)

/-- A raw crawled document as built by `DocumentProcessor._read_markdown_files`. -/
structure RawDoc where
  content : Str
  url : Str
  title : Str
  metadata : Meta
deriving DecidableEq

/-- A chunk as built by `DocumentProcessor._chunk_document`. -/
structure Chunk where
  url : Str
  chunk_number : Nat
  title : Str
  content : Str
  summary : Str
  metadata : Meta
deriving DecidableEq

/-- `self.chunk_size = 1000` in `DocumentProcessor.__init__`. -/
def chunk_size : Nat := 1000

/-- `self.chunk_overlap = 200` in `DocumentProcessor.__init__`. -/
def chunk_overlap : Nat := 200

/-- The paragraph separator `"\n\n"`. -/
def sepStr : Str := ['\n', '\n']

/-- The chunk dict appended in `_chunk_document` (both append sites build the
same fields): `content` is the trimmed accumulator, `summary` is the first
200 characters of the untrimmed accumulator plus `"..."`; `url`, `title`,
`metadata` are inherited from the document. -/
def mkChunk (doc : RawDoc) (n : Nat) (cur : Str) : Chunk :=
  ⟨doc.url, n, doc.title, pyStrip cur, cur.take 200 ++ "...".data, doc.metadata⟩

/-- `overlap_text = " ".join(words[-self.chunk_overlap:]) if words else ""`
where `words = current_chunk.split()`. -/
def overlapOf (cur : Str) : Str :=
  if pySplitWs cur ≠ [] then joinWith [' '] (lastN chunk_overlap (pySplitWs cur))
  else []

/-- The `for paragraph in paragraphs` loop of `_chunk_document`, including the
trailing `if current_chunk:` emission after the loop.  `cur` is
`current_chunk`, `n` is `chunk_number`. -/
def chunkLoop (doc : RawDoc) : List Str → Str → Nat → List Chunk
  | [], cur, n => if cur ≠ [] then [mkChunk doc n cur] else []
  | p :: ps, cur, n =>
    if cur.length + p.length ≤ chunk_size then
      chunkLoop doc ps (cur ++ p ++ sepStr) n
    else
      (if cur ≠ [] then [mkChunk doc n cur] else []) ++
        chunkLoop doc ps (overlapOf cur ++ sepStr ++ p ++ sepStr)
          (if cur ≠ [] then n + 1 else n)

/-- `DocumentProcessor._chunk_document`: split on `"\n\n"`, then run the
accumulator loop starting from an empty accumulator and counter 0. -/
def chunk_document (doc : RawDoc) : List Chunk :=
  chunkLoop doc (splitSep doc.content) [] 0

/-- Embedding vectors.  The source never inspects their numeric values, so
they are opaque tokens here. -/
abbrev Vec := List Int

/-- A chunk together with the `chunk["embedding"]` attached in
`_store_in_supabase` before insertion. -/
abbrev StoredChunk := Chunk × Vec

/-- One Supabase call issued by `_store_in_supabase`, in issue order:
`delete f` is `table("site_pages").delete().eq("metadata->>framework", f)`,
`insert b` is `table("site_pages").insert(batch)`. -/
inductive StoreOp where
  | delete : Str → StoreOp
  | insert : List StoredChunk → StoreOp
deriving DecidableEq

/-- `batch_size = 50` in `_store_in_supabase`. -/
def batch_size : Nat := 50

/-- The `for chunk in batch` embedding loop of `_store_in_supabase`: attach an
embedding to every chunk of the batch, aborting at the first embedding
failure (`DocumentProcessor._generate_embedding` re-raises the provider
error unchanged). -/
def embedChunks (embed : Str → Except Str Vec) : List Chunk → Except Str (List StoredChunk)
  | [] => Except.ok []
  | c :: cs =>
    match embed c.content with
    | Except.error e => Except.error e
    | Except.ok v =>
      match embedChunks embed cs with
      | Except.error e => Except.error e
      | Except.ok rest => Except.ok ((c, v) :: rest)

/-- The `for i in range(0, len(chunks), batch_size)` loop of
`_store_in_supabase`: embed each 50-chunk batch then insert it; an embedding
failure aborts the remaining batches.  Returns the list of issued insert
operations and the error (if any) that aborted the loop. -/
def storeBatches (embed : Str → Except Str Vec) (chunks : List Chunk) :
    List StoreOp × Option Str :=
  if h : chunks = [] then ([], none)
  else
    match embedChunks embed (chunks.take batch_size) with
    | Except.error e => ([], some e)
    | Except.ok b =>
      let r := storeBatches embed (chunks.drop batch_size)
      (StoreOp.insert b :: r.1, r.2)
termination_by chunks.length
decreasing_by
  simp only [List.length_drop]
  have hl : 0 < chunks.length := List.length_pos.mpr h
  simp only [batch_size]
  omega

/-- `DocumentProcessor._store_in_supabase`: first the single delete of all
previously stored chunks for the framework, then the batched inserts. -/
def store_in_supabase (embed : Str → Except Str Vec) (chunks : List Chunk)
    (framework : Str) : List StoreOp × Option Str :=
  (StoreOp.delete framework :: (storeBatches embed chunks).1,
    (storeBatches embed chunks).2)

/-- A row returned by the `match_documents` similarity search, with the fields
`RAGEngine` reads downstream. -/
structure RChunk where
  url : Str
  title : Str
  content : Str
deriving DecidableEq

/-- The external services behind `RAGEngine`: OpenAI embeddings
(`embeddings.create`), the Supabase `match_documents` RPC (taking the query
vector, `match_count` and `framework_filter`), and chat completion
(`chat.completions.create`, taking system and user prompt).  `Except.error`
carries the message of the exception the call would raise. -/
structure Services where
  embed : Str → Except Str Vec
  search : Vec → Nat → Str → Except Str (List RChunk)
  complete : Str → Str → Except Str Str

/-- The dict returned by `RAGEngine.query`. -/
structure QueryResult where
  answer : Str
  sources : Str
  error : Option Str
deriving DecidableEq

/-- `RAGEngine._generate_embedding`: wraps any provider failure as
`Exception(f"Error generating embedding: {e}")`. -/
def generate_embedding (s : Services) (text : Str) : Except Str Vec :=
  match s.embed text with
  | Except.ok v => Except.ok v
  | Except.error e => Except.error ("Error generating embedding: ".data ++ e)

/-- `RAGEngine.retrieve_documents`: embed the query, call `match_documents`
with `framework.lower()` as filter; any failure in the `try` block is
re-raised as `Exception(f"Error in document retrieval: {e}")`. -/
def retrieve_documents (s : Services) (query framework : Str) (top_k : Nat) :
    Except Str (List RChunk) :=
  match generate_embedding s query with
  | Except.error e => Except.error ("Error in document retrieval: ".data ++ e)
  | Except.ok v =>
    match s.search v top_k (lowerStr framework) with
    | Except.error e => Except.error ("Error in document retrieval: ".data ++ e)
    | Except.ok r => Except.ok r

/-- `RAGEngine._prepare_context`. -/
def prepare_context (chunks : List RChunk) : Str :=
  joinWith "\n\n".data (chunks.map (fun c =>
    "Section: ".data ++ c.title ++ "\nURL: ".data ++ c.url ++
      "\nContent:\n".data ++ c.content ++ ['\n'] ++ List.replicate 50 '='))

/-- The `'crawl4ai'` entry of the `system_prompts` dict. -/
def crawl4aiPrompt : Str :=
  "You are an expert on Crawl4AI, specialized in asynchronous web crawling.\n            Use the provided context to answer questions about configuration, strategies, and optimizations.".data

/-- The `'pydantic'` entry of the `system_prompts` dict. -/
def pydanticPrompt : Str :=
  "You are an expert on Pydantic AI, specialized in data validation for AI.\n            Use the provided context to answer questions about models, validations, and integrations.".data

/-- The `'agno'` entry of the `system_prompts` dict. -/
def agnoPrompt : Str :=
  "You are an expert on Agno, specialized in web development.\n            Use the provided context to answer questions about configuration, development, and best practices.".data

/-- The `'mcp'` entry of the `system_prompts` dict. -/
def mcpPrompt : Str :=
  "You are an expert on Model Context Protocol (MCP), specialized in model context management and LLM interactions.\n            \n            Key areas of expertise:\n            1. Protocol specifications and architecture\n            2. Client-server implementations\n            3. Tool definitions and integrations\n            4. Resource management and context handling\n            5. Transport layer configurations\n            6. Debugging and inspection tools\n            \n            When answering:\n            - Focus on practical implementation details\n            - Provide code examples when relevant\n            - Reference specific MCP concepts and components\n            - Explain how features integrate with LLM systems\n            - Highlight best practices and common pitfalls\n            \n            Use the provided context to give accurate, implementation-focused answers.".data

/-- `RAGEngine._get_system_prompt`: `system_prompts.get(framework, fallback)`. -/
def get_system_prompt (framework : Str) : Str :=
  if framework = "crawl4ai".data then crawl4aiPrompt
  else if framework = "pydantic".data then pydanticPrompt
  else if framework = "agno".data then agnoPrompt
  else if framework = "mcp".data then mcpPrompt
  else "You are a specialized assistant for technical documentation.".data

/-- The `user_prompt` f-string template of `RAGEngine.generate_response`
(including the indentation that is part of the Python triple-quoted
literal). -/
def user_prompt (context query : Str) : Str :=
  "Based on the following documentation sections, answer the question below.\n            If the answer cannot be fully derived from the provided context, say so.\n            \n            Documentation Sections:\n            ".data ++
    context ++
    "\n            \n            Question: ".data ++
    query ++
    "\n            \n            Please provide a clear, structured answer with:\n            1. Direct response to the question\n            2. Relevant code examples (if applicable)\n            3. Links to related documentation (if available)".data

/-- `RAGEngine.generate_response`: assemble context and prompts, call the chat
model; any failure in the `try` block is re-raised as
`Exception(f"Error in response generation: {e}")`. -/
def generate_response (s : Services) (query : Str) (chunks : List RChunk)
    (framework : Str) : Except Str Str :=
  match s.complete (get_system_prompt framework)
      (user_prompt (prepare_context chunks) query) with
  | Except.ok t => Except.ok t
  | Except.error e => Except.error ("Error in response generation: ".data ++ e)

/-- `RAGEngine.format_sources`: one `- [title](url)` line per chunk, joined by
newlines. -/
def format_sources (chunks : List RChunk) : Str :=
  joinWith ['\n'] (chunks.map (fun c =>
    "- [".data ++ c.title ++ "](".data ++ c.url ++ [')']))

/-- The canned answer `RAGEngine.query` returns when retrieval finds nothing. -/
def canned_answer : Str :=
  "No relevant documents were found. Please try rephrasing your question or ask about a different topic.".data

/-- `RAGEngine.query`: the full pipeline with its single `try/except` that
converts any raised exception into `{"answer": "", "sources": "", "error":
str(e)}`. -/
def query (s : Services) (question framework : Str) : QueryResult :=
  match retrieve_documents s question framework 8 with
  | Except.error e => ⟨[], [], some e⟩
  | Except.ok chunks =>
    if chunks = [] then ⟨canned_answer, [], none⟩
    else
      match generate_response s question chunks framework with
      | Except.error e => ⟨[], [], some e⟩
      | Except.ok resp => ⟨resp, format_sources chunks, none⟩

/-! ### Unfolding lemmas for the chunker loop -/

/-- After the loop, `if current_chunk:` emits the final accumulator. -/
theorem chunkLoop_nil (doc : RawDoc) (cur : Str) (n : Nat) :
    chunkLoop doc [] cur n = if cur ≠ [] then [mkChunk doc n cur] else [] := by
  simp only [chunkLoop]

/-- A paragraph that fits is appended to the accumulator with a separator. -/
theorem chunkLoop_cons_le (doc : RawDoc) (p : Str) (ps : List Str) (cur : Str)
    (n : Nat) (h : cur.length + p.length ≤ chunk_size) :
    chunkLoop doc (p :: ps) cur n = chunkLoop doc ps (cur ++ p ++ sepStr) n := by
  simp only [chunkLoop]
  rw [if_pos h]

/-- A paragraph that overflows emits the accumulator (when non-empty) and
reseeds with the word overlap. -/
theorem chunkLoop_cons_gt (doc : RawDoc) (p : Str) (ps : List Str) (cur : Str)
    (n : Nat) (h : ¬(cur.length + p.length ≤ chunk_size)) :
    chunkLoop doc (p :: ps) cur n =
      (if cur ≠ [] then [mkChunk doc n cur] else []) ++
        chunkLoop doc ps (overlapOf cur ++ sepStr ++ p ++ sepStr)
          (if cur ≠ [] then n + 1 else n) := by
  simp only [chunkLoop]
  rw [if_neg h]

/-! ### Chunk numbering (claim C5) -/

/-- The chunk numbers emitted by the loop starting at counter `n` are
`n, n+1, ...` in emission order. -/
theorem chunkLoop_map_number (doc : RawDoc) (ps : List Str) :
    ∀ (cur : Str) (n : Nat),
      (chunkLoop doc ps cur n).map Chunk.chunk_number =
        List.range' n (chunkLoop doc ps cur n).length := by
  induction ps with
  | nil =>
    intro cur n
    by_cases h : cur = [] <;> simp [chunkLoop_nil, h, mkChunk, List.range']
  | cons p ps ih =>
    intro cur n
    by_cases hle : cur.length + p.length ≤ chunk_size
    · rw [chunkLoop_cons_le _ _ _ _ _ hle]
      exact ih _ _
    · rw [chunkLoop_cons_gt _ _ _ _ _ hle]
      by_cases h : cur = []
      · simp only [h, ne_eq, not_true_eq_false, if_false, List.nil_append]
        exact ih _ _
      · simp only [ne_eq, h, not_false_eq_true, if_true, List.singleton_append,
          List.map_cons, List.length_cons, mkChunk]
        rw [ih _ _, List.range'_succ]

/-- Claim C5: for every document, the `chunk_number` fields of the chunks the
Chunker emits are exactly `0, 1, ..., n-1` in emission order — contiguous,
starting at 0, strictly increasing, with no gaps or repeats. -/
theorem c5_chunk_numbers_contiguous (doc : RawDoc) :
    (chunk_document doc).map Chunk.chunk_number =
      List.range (chunk_document doc).length := by
  rw [List.range_eq_range']
  exact chunkLoop_map_number doc (splitSep doc.content) [] 0

/-- Claim C4 counterexample: chunking a document whose content is the empty
string does NOT yield zero chunks (the loop appends `"" + "\n\n"` for the
single empty paragraph, so the trailing `if current_chunk:` fires). -/
theorem c4_counterexample : chunk_document ⟨[], [], [], []⟩ ≠ [] := by decide

/-- Claim C4 (amended): chunking a document whose content is the empty string
yields exactly one chunk, whose `content` is the empty string (and whose
`summary` is `"\n\n..."`). -/
theorem c4_amended_empty_doc_one_chunk (url title : Str) (meta : Meta) :
    chunk_document ⟨[], url, title, meta⟩ =
      [⟨url, 0, title, [], "\n\n...".data, meta⟩] := by
  rfl

/-! ### Chunk shape (claim C3) -/

/-- Every chunk the loop emits is built by `mkChunk` from some accumulator
value: its `content` is that accumulator trimmed and its `summary` is the
first 200 characters of that same untrimmed accumulator plus `"..."`. -/
theorem chunkLoop_mem_shape (doc : RawDoc) (ps : List Str) :
    ∀ (cur : Str) (n : Nat), ∀ c ∈ chunkLoop doc ps cur n,
      ∃ m raw, c = mkChunk doc m raw := by
  induction ps with
  | nil =>
    intro cur n c hc
    by_cases h : cur = []
    · simp [chunkLoop_nil, h] at hc
    · simp [chunkLoop_nil, h] at hc
      exact ⟨n, cur, hc⟩
  | cons p ps ih =>
    intro cur n c hc
    by_cases hle : cur.length + p.length ≤ chunk_size
    · rw [chunkLoop_cons_le _ _ _ _ _ hle] at hc
      exact ih _ _ c hc
    · rw [chunkLoop_cons_gt _ _ _ _ _ hle] at hc
      rcases List.mem_append.mp hc with h1 | h2
      · by_cases h : cur = []
        · simp [h] at h1
        · simp [h] at h1
          exact ⟨n, cur, h1⟩
      · exact ih _ _ c h2

/-- Claim C3 counterexample: for the document with content `"abc"`, the single
emitted chunk has `summary = "abc\n\n..."` but `content = "abc"`, so the
summary is not `content[:200] + "..."` (the summary is taken from the
untrimmed accumulator `"abc\n\n"`, the content from its trimmed form). -/
theorem c3_counterexample :
    ∃ c ∈ chunk_document ⟨"abc".data, [], [], []⟩,
      c.summary ≠ c.content.take 200 ++ "...".data := by decide

/-- Claim C3 (amended): every emitted chunk carries the summary of the
untrimmed accumulator it was emitted from: there is a raw accumulator string
whose trimmed form is the chunk `content` and whose literal first 200
characters plus `"..."` are the chunk `summary` (when the accumulator starts
with no whitespace and is longer than 200 characters this coincides with
`content[:200] + "..."`, but not in general). -/
theorem c3_amended_summary_from_accumulator (doc : RawDoc) :
    ∀ c ∈ chunk_document doc,
      ∃ raw, c.content = pyStrip raw ∧ c.summary = raw.take 200 ++ "...".data := by
  intro c hc
  obtain ⟨m, raw, rfl⟩ := chunkLoop_mem_shape doc (splitSep doc.content) [] 0 c hc
  exact ⟨raw, rfl, rfl⟩

/-- Claim C3 witness: the amended statement evaluated on the concrete document
with content `"abc"` and its single emitted chunk. -/
theorem c3_witness :
    ∃ raw, (⟨[], 0, [], "abc".data, "abc\n\n...".data, []⟩ : Chunk).content = pyStrip raw ∧
      (⟨[], 0, [], "abc".data, "abc\n\n...".data, []⟩ : Chunk).summary = raw.take 200 ++ "...".data :=
  c3_amended_summary_from_accumulator ⟨"abc".data, [], [], []⟩
    ⟨[], 0, [], "abc".data, "abc\n\n...".data, []⟩ (by decide)

/-! ### Store operation ordering (claim C9) -/

/-- Every operation the batch loop issues is an insert. -/
theorem storeBatches_ops_insert (embed : Str → Except Str Vec) :
    ∀ (chunks : List Chunk), ∀ op ∈ (storeBatches embed chunks).1,
      ∃ b, op = StoreOp.insert b := by
  have key : ∀ (k : Nat) (chunks : List Chunk), chunks.length ≤ k →
      ∀ op ∈ (storeBatches embed chunks).1, ∃ b, op = StoreOp.insert b := by
    intro k
    induction k with
    | zero =>
      intro chunks hlen op hop
      have hnil : chunks = [] := List.eq_nil_of_length_eq_zero (Nat.le_zero.mp hlen)
      rw [storeBatches, dif_pos hnil] at hop
      simp at hop
    | succ k ih =>
      intro chunks hlen op hop
      by_cases h : chunks = []
      · rw [storeBatches, dif_pos h] at hop
        simp at hop
      · rw [storeBatches, dif_neg h] at hop
        cases hemb : embedChunks embed (chunks.take batch_size) with
        | error e =>
          rw [hemb] at hop
          simp at hop
        | ok b =>
          rw [hemb] at hop
          simp only [List.mem_cons] at hop
          rcases hop with rfl | hop
          · exact ⟨b, rfl⟩
          · have hdrop : (chunks.drop batch_size).length ≤ k := by
              have h0 : 0 < chunks.length := List.length_pos.mpr h
              simp only [List.length_drop, batch_size]
              omega
            exact ih (chunks.drop batch_size) hdrop op hop
  intro chunks
  exact key chunks.length chunks (Nat.le_refl _)

/-- Claim C9: the store operations issued by `_store_in_supabase` always start
with the single delete of the previously stored chunks for the framework,
and every later operation is an insert — an insert is never issued before
the delete, for any chunk list and any (possibly failing) embedding
service. -/
theorem c9_delete_precedes_inserts (embed : Str → Except Str Vec)
    (chunks : List Chunk) (framework : Str) :
    ∃ ops, (store_in_supabase embed chunks framework).1 =
        StoreOp.delete framework :: ops ∧
      ∀ op ∈ ops, ∃ b, op = StoreOp.insert b :=
  ⟨(storeBatches embed chunks).1, rfl, storeBatches_ops_insert embed chunks⟩

/-! ### Read-path vs write-path framework value (claim C10) -/

/-- The upper-case ASCII letters (Python `string.ascii_uppercase`). -/
def ascii_uppercase : Str := "ABCDEFGHIJKLMNOPQRSTUVWXYZ".data

/-- Lower-casing changes every upper-case ASCII letter. -/
theorem toLower_ne_of_upper : ∀ c ∈ ascii_uppercase, Char.toLower c ≠ c := by
  decide

/-- A string containing an upper-case ASCII letter is changed by `lower()`. -/
theorem lowerStr_ne_of_upper (f : Str) (c : Char) (hc : c ∈ f)
    (hu : c ∈ ascii_uppercase) : lowerStr f ≠ f := by
  intro h
  induction f with
  | nil => simp at hc
  | cons a t ih =>
    simp only [lowerStr, List.map_cons, List.cons.injEq] at h
    rcases List.mem_cons.mp hc with rfl | hct
    · exact toLower_ne_of_upper c hu h.1
    · exact ih hct (by simpa [lowerStr] using h.2)

/-- Claim C10: `retrieve_documents` filters the similarity search with the
lower-cased framework string, while `_store_in_supabase` deletes (and
inserts) with the framework string unmodified; for any framework string
containing an upper-case letter the read-path filter value therefore
differs from the write-path framework value. -/
theorem c10_read_write_framework_mismatch (f : Str)
    (h : ∃ c ∈ f, c ∈ ascii_uppercase) :
    lowerStr f ≠ f ∧
    (∀ s q k v, s.embed q = Except.ok v →
      retrieve_documents s q f k =
        match s.search v k (lowerStr f) with
        | Except.ok r => Except.ok r
        | Except.error e =>
          Except.error ("Error in document retrieval: ".data ++ e)) ∧
    (∀ embed chunks,
      (store_in_supabase embed chunks f).1.head? = some (StoreOp.delete f)) := by
  obtain ⟨c, hc, hu⟩ := h
  refine ⟨lowerStr_ne_of_upper f c hc hu, ?_, ?_⟩
  · intro s q k v hv
    have hge : generate_embedding s q = Except.ok v := by
      simp [generate_embedding, hv]
    simp only [retrieve_documents, hge]
    cases s.search v k (lowerStr f) <;> rfl
  · intro embed chunks
    rfl

/-- Claim C10 witness: evaluated at the framework string `"Agno"`, which
contains the upper-case letter `A`. -/
theorem c10_witness : lowerStr "Agno".data ≠ "Agno".data :=
  (c10_read_write_framework_mismatch "Agno".data (by decide)).1

/-! ### The 10/10/990 three-paragraph document (claim C8) -/

/-- A document that splits into three paragraphs of 10, 10 and 990 characters
produces exactly two chunks: when the third paragraph arrives the
accumulator already holds `10 + 2 + 10 + 2 = 24` characters (the two
paragraphs and their `"\n\n"` separators), and `24 + 990 > 1000`. -/
theorem three_paragraphs_yield_two_chunks (doc : RawDoc) (p1 p2 p3 : Str)
    (hsplit : splitSep doc.content = [p1, p2, p3])
    (h1 : p1.length = 10) (h2 : p2.length = 10) (h3 : p3.length = 990) :
    (chunk_document doc).length = 2 := by
  unfold chunk_document
  rw [hsplit]
  rw [chunkLoop_cons_le _ _ _ _ _ (by simp [h1, chunk_size])]
  rw [chunkLoop_cons_le _ _ _ _ _ (by simp [sepStr, h1, h2, chunk_size])]
  rw [chunkLoop_cons_gt _ _ _ _ _ (by simp [sepStr, h1, h2, h3, chunk_size])]
  rw [chunkLoop_nil]
  have hne2 : ([] : Str) ++ p1 ++ sepStr ++ p2 ++ sepStr ≠ [] := by
    simp [sepStr]
  have hne3 : overlapOf (([] : Str) ++ p1 ++ sepStr ++ p2 ++ sepStr) ++ sepStr
      ++ p3 ++ sepStr ≠ [] := by
    simp [sepStr]
  rw [if_pos hne2, if_pos hne3]
  simp

/-- The concrete three-paragraph document of claim C8: paragraphs of 10, 10
and 990 characters separated by double newlines. -/
def docC8 : RawDoc :=
  ⟨List.replicate 10 'a' ++ sepStr ++ List.replicate 10 'b' ++ sepStr ++
    List.replicate 990 'c', [], [], []⟩

/-- Claim C8 counterexample: the 10/10/990 three-paragraph document with
`chunkSize = 1000` does NOT yield exactly one chunk (the separators push
the accumulator to 24 characters before the 990-character paragraph, and
`24 + 990 > 1000`). -/
theorem c8_counterexample : (chunk_document docC8).length ≠ 1 := by
  have h := three_paragraphs_yield_two_chunks docC8 (List.replicate 10 'a')
    (List.replicate 10 'b') (List.replicate 990 'c') (by decide) (by decide)
    (by decide) (by decide)
  omega

/-- Claim C8 (amended): chunking a document consisting of three paragraphs of
10, 10 and 990 characters (in that order, separated by double newlines)
with `chunkSize = 1000` yields exactly two chunks. -/
theorem c8_amended_two_chunks (doc : RawDoc) (p1 p2 p3 : Str)
    (hsplit : splitSep doc.content = [p1, p2, p3])
    (h1 : p1.length = 10) (h2 : p2.length = 10) (h3 : p3.length = 990) :
    (chunk_document doc).length = 2 :=
  three_paragraphs_yield_two_chunks doc p1 p2 p3 hsplit h1 h2 h3

/-- Claim C8 witness: the amended statement evaluated on the concrete
10/10/990 document. -/
theorem c8_witness : (chunk_document docC8).length = 2 :=
  c8_amended_two_chunks docC8 (List.replicate 10 'a') (List.replicate 10 'b')
    (List.replicate 990 'c') (by decide) (by decide) (by decide) (by decide)

/-! ### Query pipeline error contract (claims C1 and C2) -/

/-- Any error surfaced by `retrieve_documents` carries the non-empty
`"Error in document retrieval: "` wrapper. -/
theorem retrieve_documents_error_shape (s : Services) (q f : Str) (k : Nat)
    (e : Str) (h : retrieve_documents s q f k = Except.error e) :
    ∃ msg, e = "Error in document retrieval: ".data ++ msg := by
  unfold retrieve_documents at h
  split at h
  · exact ⟨_, (Except.error.injEq _ _).mp h.symm⟩
  · split at h
    · exact ⟨_, (Except.error.injEq _ _).mp h.symm⟩
    · simp at h

/-- Any error surfaced by `generate_response` carries the non-empty
`"Error in response generation: "` wrapper. -/
theorem generate_response_error_shape (s : Services) (q : Str)
    (chunks : List RChunk) (f : Str) (e : Str)
    (h : generate_response s q chunks f = Except.error e) :
    ∃ msg, e = "Error in response generation: ".data ++ msg := by
  unfold generate_response at h
  split at h
  · simp at h
  · exact ⟨_, (Except.error.injEq _ _).mp h.symm⟩

/-- A non-empty literal prefix keeps a message non-empty. -/
theorem wrapped_ne_nil (pre : Str) (hpre : pre ≠ []) (msg : Str) :
    pre ++ msg ≠ [] := by
  intro h
  rcases List.append_eq_nil.mp h with ⟨h1, _⟩
  exact hpre h1

/-- An embedding failure surfaces from `retrieve_documents` as a wrapped
error value, not as an escaping exception. -/
theorem retrieve_documents_embed_error (s : Services) (q f : Str) (k : Nat)
    (e : Str) (h : s.embed q = Except.error e) :
    retrieve_documents s q f k =
      Except.error ("Error in document retrieval: ".data ++
        ("Error generating embedding: ".data ++ e)) := by
  simp [retrieve_documents, generate_embedding, h]

/-- A similarity-search failure surfaces from `retrieve_documents` as a
wrapped error value. -/
theorem retrieve_documents_search_error (s : Services) (q f : Str) (k : Nat)
    (v : Vec) (e : Str) (hv : s.embed q = Except.ok v)
    (hs : s.search v k (lowerStr f) = Except.error e) :
    retrieve_documents s q f k =
      Except.error ("Error in document retrieval: ".data ++ e) := by
  simp [retrieve_documents, generate_embedding, hv, hs]

/-- A chat-completion failure surfaces from `generate_response` as a wrapped
error value. -/
theorem generate_response_complete_error (s : Services) (q : Str)
    (chunks : List RChunk) (f : Str) (e : Str)
    (h : s.complete (get_system_prompt f)
        (user_prompt (prepare_context chunks) q) = Except.error e) :
    generate_response s q chunks f =
      Except.error ("Error in response generation: ".data ++ e) := by
  simp [generate_response, h]

/-- Claim C1: `query` is total (no exception escapes it); a failure raised by
the embedding call, the similarity search, or the generation call is caught
and returned as `QueryResult` with empty `answer` and `sources` and a
non-empty `error` message; a non-null `error` implies `answer` and
`sources` are empty strings, and a null `error` implies `answer` holds the
canned no-documents message or the generated text. -/
theorem c1_query_error_contract (s : Services) (q f : Str) :
    (∀ m, (query s q f).error = some m →
      m ≠ [] ∧ (query s q f).answer = [] ∧ (query s q f).sources = []) ∧
    ((query s q f).error = none →
      ((query s q f).answer = canned_answer ∧ (query s q f).sources = []) ∨
      ∃ chunks, retrieve_documents s q f 8 = Except.ok chunks ∧ chunks ≠ [] ∧
        generate_response s q chunks f = Except.ok (query s q f).answer ∧
        (query s q f).sources = format_sources chunks) ∧
    (∀ e, s.embed q = Except.error e →
      ∃ m, (query s q f).error = some m ∧ m ≠ []) ∧
    (∀ v e, s.embed q = Except.ok v →
        s.search v 8 (lowerStr f) = Except.error e →
      ∃ m, (query s q f).error = some m ∧ m ≠ []) ∧
    (∀ chunks e, retrieve_documents s q f 8 = Except.ok chunks → chunks ≠ [] →
        s.complete (get_system_prompt f)
          (user_prompt (prepare_context chunks) q) = Except.error e →
      ∃ m, (query s q f).error = some m ∧ m ≠ []) := by
  cases hr : retrieve_documents s q f 8 with
  | error e =>
    have hq : query s q f = ⟨[], [], some e⟩ := by simp [query, hr]
    obtain ⟨msg, rfl⟩ := retrieve_documents_error_shape s q f 8 e hr
    have hene : "Error in document retrieval: ".data ++ msg ≠ [] :=
      wrapped_ne_nil _ (by decide) _
    refine ⟨?_, ?_⟩
    · intro m hm
      rw [hq] at hm
      simp only [Option.some.injEq] at hm
      subst hm
      exact ⟨hene, by rw [hq], by rw [hq]⟩
    refine ⟨?_, ?_, ?_, ?_⟩
    · intro hnone
      rw [hq] at hnone
      simp at hnone
    · intro e0 _
      exact ⟨_, by rw [hq], hene⟩
    · intro v e0 _ _
      exact ⟨_, by rw [hq], hene⟩
    · intro chunks e0 hok _ _
      simp at hok
  | ok chunks =>
    by_cases hc : chunks = []
    · subst hc
      have hq : query s q f = ⟨canned_answer, [], none⟩ := by simp [query, hr]
      refine ⟨?_, ?_, ?_, ?_, ?_⟩
      · intro m hm
        rw [hq] at hm
        simp at hm
      · intro _
        left
        rw [hq]
        exact ⟨rfl, rfl⟩
      · intro e0 he0
        have hcontra := retrieve_documents_embed_error s q f 8 e0 he0
        rw [hr] at hcontra
        simp at hcontra
      · intro v e0 hv hs
        have hcontra := retrieve_documents_search_error s q f 8 v e0 hv hs
        rw [hr] at hcontra
        simp at hcontra
      · intro chunks' e0 hok hne _
        have : chunks' = [] := by simpa using hok.symm
        exact absurd this hne
    · cases hg : generate_response s q chunks f with
      | error e1 =>
        have hq : query s q f = ⟨[], [], some e1⟩ := by simp [query, hr, hc, hg]
        obtain ⟨msg, rfl⟩ := generate_response_error_shape s q chunks f e1 hg
        have hene : "Error in response generation: ".data ++ msg ≠ [] :=
          wrapped_ne_nil _ (by decide) _
        refine ⟨?_, ?_, ?_, ?_, ?_⟩
        · intro m hm
          rw [hq] at hm
          simp only [Option.some.injEq] at hm
          subst hm
          exact ⟨hene, by rw [hq], by rw [hq]⟩
        · intro hnone
          rw [hq] at hnone
          simp at hnone
        · intro e0 _
          exact ⟨_, by rw [hq], hene⟩
        · intro v e0 _ _
          exact ⟨_, by rw [hq], hene⟩
        · intro chunks' e0 _ _ _
          exact ⟨_, by rw [hq], hene⟩
      | ok resp =>
        have hq : query s q f = ⟨resp, format_sources chunks, none⟩ := by
          simp [query, hr, hc, hg]
        refine ⟨?_, ?_, ?_, ?_, ?_⟩
        · intro m hm
          rw [hq] at hm
          simp at hm
        · intro _
          right
          refine ⟨chunks, rfl, hc, ?_, by rw [hq]⟩
          rw [hq]
          exact hg
        · intro e0 he0
          have hcontra := retrieve_documents_embed_error s q f 8 e0 he0
          rw [hr] at hcontra
          simp at hcontra
        · intro v e0 hv hs
          have hcontra := retrieve_documents_search_error s q f 8 v e0 hv hs
          rw [hr] at hcontra
          simp at hcontra
        · intro chunks' e0 hok hne' hcomp
          have hcc : chunks' = chunks := by simpa using hok.symm
          subst hcc
          have hcontra := generate_response_complete_error s q chunks' f e0 hcomp
          rw [hg] at hcontra
          simp at hcontra

/-- Claim C2: when retrieval returns zero chunks, `query` terminates
successfully with the fixed canned answer, an empty sources string and a
null error — it does not take the failure path. -/
theorem c2_empty_retrieval_is_success (s : Services) (q f : Str)
    (h : retrieve_documents s q f 8 = Except.ok []) :
    query s q f = ⟨canned_answer, [], none⟩ := by
  simp [query, h]

/-- A service bundle whose embedding call always fails. -/
def svcEmbedFail : Services :=
  ⟨fun _ => Except.error "boom".data, fun _ _ _ => Except.ok [],
    fun _ _ => Except.ok "generated".data⟩

/-- A service bundle whose similarity search always returns zero rows. -/
def svcNoHits : Services :=
  ⟨fun _ => Except.ok [1], fun _ _ _ => Except.ok [],
    fun _ _ => Except.ok "generated".data⟩

/-- Claim C1 witness: with an embedding service that fails, `query` on a
concrete question and framework returns a non-empty error message. -/
theorem c1_witness :
    ∃ m, (query svcEmbedFail "how do I crawl".data "agno".data).error = some m ∧
      m ≠ [] :=
  (c1_query_error_contract svcEmbedFail "how do I crawl".data "agno".data).2.2.1
    "boom".data rfl

/-- Claim C2 witness: with a search service that returns zero rows, `query`
on a concrete question and framework returns the canned result. -/
theorem c2_witness :
    query svcNoHits "how do I crawl".data "agno".data =
      ⟨canned_answer, [], none⟩ :=
  c2_empty_retrieval_is_success svcNoHits "how do I crawl".data "agno".data rfl

/-! ### Trimming preserves prefixes and infixes of non-whitespace-edged
strings (support for claims C6 and C7) -/

/-- The head of a `dropWhile p` result never satisfies `p`. -/
theorem head?_dropWhile_not (p : α → Bool) (l : List α) :
    ∀ c, (l.dropWhile p).head? = some c → p c = false := by
  induction l with
  | nil => simp
  | cons a t ih =>
    intro c hc
    rw [List.dropWhile_cons] at hc
    by_cases h : p a
    · rw [if_pos h] at hc
      exact ih c hc
    · rw [if_neg h] at hc
      simp only [List.head?_cons, Option.some.injEq] at hc
      subst hc
      exact Bool.eq_false_iff.mpr h

/-- `dropWhile` is the identity on a list whose head does not satisfy `p`. -/
theorem dropWhile_eq_self_of_head (p : α → Bool) (l : List α) (c : α)
    (hc : l.head? = some c) (h : p c = false) : l.dropWhile p = l := by
  cases l with
  | nil => simp at hc
  | cons a t =>
    simp only [List.head?_cons, Option.some.injEq] at hc
    subst hc
    rw [List.dropWhile_cons, if_neg (by simp [h])]

/-- A prefix with a `some` head forces the same head on the larger list. -/
theorem head?_of_prefix (l₁ l₂ : List α) (a : α) (h : l₁ <+: l₂)
    (hh : l₁.head? = some a) : l₂.head? = some a := by
  obtain ⟨t, rfl⟩ := h
  cases l₁ with
  | nil => simp at hh
  | cons b l => simpa using hh

/-- An infix whose head does not satisfy `p` survives `dropWhile p`. -/
theorem infix_dropWhile (p : α → Bool) (s l : List α)
    (hs : ∀ c, s.head? = some c → p c = false) (h : s <:+: l) :
    s <:+: l.dropWhile p := by
  obtain ⟨u, v, rfl⟩ := h
  induction u with
  | nil =>
    cases s with
    | nil => exact List.nil_infix
    | cons c s' =>
      have hc : p c = false := hs c rfl
      simp only [List.nil_append, List.cons_append, List.dropWhile_cons]
      rw [if_neg (by simp [hc])]
      exact List.IsPrefix.isInfix (by simp [List.prefix_append])
  | cons a u ih =>
    simp only [List.cons_append, List.dropWhile_cons]
    by_cases h : p a
    · rw [if_pos h]
      exact ih
    · rw [if_neg h]
      exact ⟨a :: u, v, by simp⟩

/-- A suffix whose head does not satisfy `p` survives `dropWhile p`. -/
theorem suffix_dropWhile (p : α → Bool) (s l : List α)
    (hs : ∀ c, s.head? = some c → p c = false) (h : s <:+ l) :
    s <:+ l.dropWhile p := by
  obtain ⟨u, rfl⟩ := h
  cases s with
  | nil => exact List.nil_suffix
  | cons c s' =>
    have hc : p c = false := hs c rfl
    rw [List.dropWhile_append]
    split
    · rw [List.dropWhile_cons, if_neg (by simp [hc])]
    · exact ⟨_, rfl⟩

/-- A prefix whose last character is non-whitespace survives `rstrip`. -/
theorem prefix_rstrip (s x : Str)
    (hlast : ∀ c, s.getLast? = some c → pySpace c = false) (h : s <+: x) :
    s <+: rstrip x := by
  have h1 : s.reverse <:+ x.reverse := List.reverse_suffix.mpr h
  have h2 : s.reverse <:+ x.reverse.dropWhile pySpace := by
    refine suffix_dropWhile pySpace _ _ ?_ h1
    intro c hc
    rw [List.head?_reverse] at hc
    exact hlast c hc
  have h3 : s.reverse <:+ (rstrip x).reverse := by
    rw [rstrip, List.reverse_reverse]
    exact h2
  exact List.reverse_suffix.mp h3

/-- An infix whose last character is non-whitespace survives `rstrip`. -/
theorem infix_rstrip (s x : Str)
    (hlast : ∀ c, s.getLast? = some c → pySpace c = false) (h : s <:+: x) :
    s <:+: rstrip x := by
  have h1 : s.reverse <:+: x.reverse := List.reverse_infix.mpr h
  have h2 : s.reverse <:+: x.reverse.dropWhile pySpace := by
    refine infix_dropWhile pySpace _ _ ?_ h1
    intro c hc
    rw [List.head?_reverse] at hc
    exact hlast c hc
  have h3 : s.reverse <:+: (rstrip x).reverse := by
    rw [rstrip, List.reverse_reverse]
    exact h2
  exact List.reverse_infix.mp h3

/-- `rstrip` of a string is a prefix of it. -/
theorem rstrip_prefix_self (x : Str) : rstrip x <+: x := by
  apply List.reverse_suffix.mp
  rw [rstrip, List.reverse_reverse]
  exact List.dropWhile_suffix pySpace

/-- `strip` of a string is an infix of it. -/
theorem pyStrip_infix_self (s : Str) : pyStrip s <:+: s :=
  List.IsInfix.trans (List.IsPrefix.isInfix (rstrip_prefix_self (lstrip s)))
    (List.IsSuffix.isInfix (List.dropWhile_suffix pySpace))

/-- The first character of a stripped string is never whitespace. -/
theorem pyStrip_head (s : Str) :
    ∀ c, (pyStrip s).head? = some c → pySpace c = false := by
  intro c hc
  have h1 : (lstrip s).head? = some c :=
    head?_of_prefix _ _ c (rstrip_prefix_self (lstrip s)) hc
  exact head?_dropWhile_not pySpace s c h1

/-- The last character of a stripped string is never whitespace. -/
theorem pyStrip_last (s : Str) :
    ∀ c, (pyStrip s).getLast? = some c → pySpace c = false := by
  intro c hc
  rw [← List.head?_reverse, pyStrip, rstrip, List.reverse_reverse] at hc
  exact head?_dropWhile_not pySpace _ c hc

/-- Stripping both sides preserves the infix relation: if `s` occurs inside
`l`, the stripped `s` occurs inside the stripped `l`. -/
theorem infix_pyStrip_mono (s l : Str) (h : s <:+: l) :
    pyStrip s <:+: pyStrip l := by
  have h0 : pyStrip s <:+: l := List.IsInfix.trans (pyStrip_infix_self s) h
  have h1 : pyStrip s <:+: lstrip l :=
    infix_dropWhile pySpace _ _ (pyStrip_head s) h0
  exact infix_rstrip _ _ (pyStrip_last s) h1

/-- A prefix with non-whitespace first and last characters survives
stripping. -/
theorem prefix_pyStrip (s l : Str)
    (hhead : ∀ c, s.head? = some c → pySpace c = false)
    (hlast : ∀ c, s.getLast? = some c → pySpace c = false) (h : s <+: l) :
    s <+: pyStrip l := by
  cases s with
  | nil => exact List.nil_prefix
  | cons a s' =>
    have ha : pySpace a = false := hhead a rfl
    have hl : l.head? = some a := head?_of_prefix _ _ a h rfl
    have hlstrip : lstrip l = l :=
      dropWhile_eq_self_of_head pySpace l a hl ha
    rw [pyStrip, hlstrip]
    exact prefix_rstrip _ _ hlast h

/-! ### Words produced by `split()` and their space-joined form -/

/-- Every word of `s.split()` is non-empty and contains no whitespace. -/
theorem pySplitWs_words (s : Str) :
    ∀ w ∈ pySplitWs s, w ≠ [] ∧ ∀ c ∈ w, pySpace c = false := by
  induction s using pySplitWs.induct with
  | case1 => simp [pySplitWs]
  | case2 c cs hsp ih =>
    intro w hw
    rw [pySplitWs, if_pos hsp] at hw
    exact ih w hw
  | case3 c cs hsp ih =>
    intro w hw
    rw [pySplitWs, if_neg hsp] at hw
    rcases List.mem_cons.mp hw with rfl | hw2
    · refine ⟨by simp, ?_⟩
      intro d hd
      rcases List.mem_cons.mp hd with rfl | hd2
      · exact Bool.eq_false_iff.mpr hsp
      · have := List.mem_takeWhile_imp hd2
        simpa using this
    · exact ih w hw2

/-- Joining non-empty words yields a non-empty string. -/
theorem joinWith_ne_nil (ws : List Str) (hne : ws ≠ [])
    (hw : ∀ w ∈ ws, w ≠ []) : joinWith [' '] ws ≠ [] := by
  cases ws with
  | nil => exact absurd rfl hne
  | cons w ws' =>
    cases ws' with
    | nil => simpa [joinWith] using hw w (by simp)
    | cons w2 ws2 =>
      show w ++ [' '] ++ joinWith [' '] (w2 :: ws2) ≠ []
      intro hcontra
      simp [List.append_eq_nil] at hcontra

/-- The space-join of non-empty whitespace-free words starts and ends with a
non-whitespace character. -/
theorem joinSpace_edge (ws : List Str)
    (hw : ∀ w ∈ ws, w ≠ [] ∧ ∀ c ∈ w, pySpace c = false) :
    (∀ c, (joinWith [' '] ws).head? = some c → pySpace c = false) ∧
    (∀ c, (joinWith [' '] ws).getLast? = some c → pySpace c = false) := by
  induction ws with
  | nil => simp [joinWith]
  | cons w ws' ih =>
    cases ws' with
    | nil =>
      constructor
      · intro c hc
        exact (hw w (by simp)).2 c (List.mem_of_mem_head? hc)
      · intro c hc
        exact (hw w (by simp)).2 c (List.mem_of_mem_getLast? hc)
    | cons w2 ws2 =>
      have hm : ∀ v ∈ w2 :: ws2, v ≠ [] ∧ ∀ c ∈ v, pySpace c = false := by
        intro v hv
        exact hw v (List.mem_cons_of_mem _ hv)
      have hjne : joinWith [' '] (w2 :: ws2) ≠ [] :=
        joinWith_ne_nil _ (by simp) (fun v hv => (hm v hv).1)
      have hwne : w ≠ [] := (hw w (by simp)).1
      have hunfold : joinWith [' '] (w :: w2 :: ws2) =
          w ++ [' '] ++ joinWith [' '] (w2 :: ws2) := rfl
      constructor
      · intro c hc
        rw [hunfold] at hc
        have hhw : (w ++ [' '] ++ joinWith [' '] (w2 :: ws2)).head? = w.head? := by
          cases w with
          | nil => exact absurd rfl hwne
          | cons a w2 => simp
        rw [hhw] at hc
        exact (hw w (by simp)).2 c (List.mem_of_mem_head? hc)
      · intro c hc
        rw [hunfold] at hc
        rw [List.getLast?_append_of_ne_nil _ hjne] at hc
        exact (ih hm).2 c hc

/-- The two branches of `overlapOf` agree with the unguarded expression:
when there are no words, both give the empty string. -/
theorem overlapOf_eq (cur : Str) :
    overlapOf cur = joinWith [' '] (lastN chunk_overlap (pySplitWs cur)) := by
  unfold overlapOf
  split
  · rfl
  · next h =>
    have hnil : pySplitWs cur = [] := not_not.mp (by simpa using h)
    rw [hnil]
    rfl

/-- The word overlap string starts and ends with non-whitespace characters
(or is empty). -/
theorem overlapOf_edge (cur : Str) :
    (∀ c, (overlapOf cur).head? = some c → pySpace c = false) ∧
    (∀ c, (overlapOf cur).getLast? = some c → pySpace c = false) := by
  rw [overlapOf_eq]
  refine joinSpace_edge _ ?_
  intro w hw
  exact pySplitWs_words cur w (List.mem_of_mem_drop hw)

/-! ### The first chunk emitted by the loop extends the accumulator
(support for claims C6 and C7) -/

/-- Whenever the loop starts with a non-empty accumulator, it emits at least
one chunk, and the first emitted chunk is built from an accumulator that
extends the starting one on the right. -/
theorem chunkLoop_head_extends (doc : RawDoc) (ps : List Str) :
    ∀ (cur : Str) (n : Nat), cur ≠ [] →
      ∃ m raw rest, chunkLoop doc ps cur n = mkChunk doc m raw :: rest ∧
        cur <+: raw := by
  induction ps with
  | nil =>
    intro cur n h
    refine ⟨n, cur, [], ?_, List.prefix_refl _⟩
    rw [chunkLoop_nil, if_pos h]
  | cons p ps ih =>
    intro cur n h
    by_cases hle : cur.length + p.length ≤ chunk_size
    · rw [chunkLoop_cons_le _ _ _ _ _ hle]
      have hne : cur ++ p ++ sepStr ≠ [] := by
        intro hcontra
        simp [sepStr, List.append_eq_nil] at hcontra
      obtain ⟨m, raw, rest, heq, hpre⟩ := ih (cur ++ p ++ sepStr) n hne
      refine ⟨m, raw, rest, heq, ?_⟩
      refine List.IsPrefix.trans ?_ hpre
      rw [List.append_assoc]
      exact List.prefix_append cur _
    · rw [chunkLoop_cons_gt _ _ _ _ _ hle, if_pos h, if_pos h]
      have hne2 : overlapOf cur ++ sepStr ++ p ++ sepStr ≠ [] := by
        intro hcontra
        simp [sepStr, List.append_eq_nil] at hcontra
      obtain ⟨m2, raw2, rest2, heq2, _⟩ :=
        ih (overlapOf cur ++ sepStr ++ p ++ sepStr) (n + 1) hne2
      exact ⟨n, cur, _, by rw [heq2]; rfl, List.prefix_refl _⟩

/-- Claim C7: when a paragraph overflows a non-empty accumulator, the loop
emits that accumulator as a chunk and the next emitted chunk's content
begins with the last `chunk_overlap` (200) whitespace-split words of the
just-emitted accumulator joined by single spaces; when the accumulator has
at most 200 words, all of them are carried. -/
theorem c7_overlap_carries_words (doc : RawDoc) (p : Str) (ps : List Str)
    (cur : Str) (n : Nat) (hcur : cur ≠ [])
    (hover : ¬(cur.length + p.length ≤ chunk_size)) :
    ∃ c2 rest,
      chunkLoop doc (p :: ps) cur n = mkChunk doc n cur :: c2 :: rest ∧
      joinWith [' '] (lastN chunk_overlap (pySplitWs cur)) <+: c2.content ∧
      ((pySplitWs cur).length ≤ chunk_overlap →
        lastN chunk_overlap (pySplitWs cur) = pySplitWs cur) := by
  rw [chunkLoop_cons_gt _ _ _ _ _ hover, if_pos hcur, if_pos hcur]
  have hne2 : overlapOf cur ++ sepStr ++ p ++ sepStr ≠ [] := by
    intro hcontra
    simp [sepStr, List.append_eq_nil] at hcontra
  obtain ⟨m, raw, rest, heq, hpre⟩ :=
    chunkLoop_head_extends doc ps (overlapOf cur ++ sepStr ++ p ++ sepStr)
      (n + 1) hne2
  rw [heq]
  refine ⟨mkChunk doc m raw, rest, rfl, ?_, ?_⟩
  · rw [← overlapOf_eq]
    have hpre0 : overlapOf cur <+: overlapOf cur ++ sepStr ++ p ++ sepStr :=
      ⟨sepStr ++ p ++ sepStr, by simp⟩
    have hpre2 : overlapOf cur <+: raw := List.IsPrefix.trans hpre0 hpre
    exact prefix_pyStrip _ _ (overlapOf_edge cur).1 (overlapOf_edge cur).2 hpre2
  · intro hlen
    simp [lastN, Nat.sub_eq_zero_of_le hlen]

/-- Claim C7 witness: a 2-character accumulator `"ab"` overflowed by a
999-character paragraph; the second chunk starts with the carried word
list `["ab"]` joined by spaces (that is, with `"ab"`). -/
theorem c7_witness :
    ∃ c2 rest,
      chunkLoop ⟨[], [], [], []⟩ [List.replicate 999 'x'] "ab".data 0 =
        mkChunk ⟨[], [], [], []⟩ 0 "ab".data :: c2 :: rest ∧
      joinWith [' '] (lastN chunk_overlap (pySplitWs "ab".data)) <+: c2.content ∧
      ((pySplitWs "ab".data).length ≤ chunk_overlap →
        lastN chunk_overlap (pySplitWs "ab".data) = pySplitWs "ab".data) :=
  c7_overlap_carries_words ⟨[], [], [], []⟩ (List.replicate 999 'x') []
    "ab".data 0 (by decide) (by decide)

/-! ### Paragraph coverage (claim C6) -/

/-- Every paragraph fed to the loop lands (in trimmed form) inside some
emitted chunk, and the assignment of paragraphs to chunk positions is
monotone, so paragraphs appear in document order across the chunks. -/
theorem chunkLoop_coverage (doc : RawDoc) (ps : List Str) :
    ∀ (cur : Str) (n : Nat),
      ∃ idx : List Nat, idx.length = ps.length ∧ idx.Chain' (· ≤ ·) ∧
        ∀ (i : Nat) (p : Str) (j : Nat), ps[i]? = some p → idx[i]? = some j →
          ∃ c, (chunkLoop doc ps cur n)[j]? = some c ∧
            pyStrip p <:+: c.content := by
  induction ps with
  | nil =>
    intro cur n
    refine ⟨[], rfl, trivial, ?_⟩
    intro i p j hp hj
    simp at hp
  | cons p ps ih =>
    intro cur n
    by_cases hle : cur.length + p.length ≤ chunk_size
    · obtain ⟨idx, hlen, hchain, hcov⟩ := ih (cur ++ p ++ sepStr) n
      refine ⟨0 :: idx, by simp [hlen], ?_, ?_⟩
      · rw [List.chain'_cons']
        exact ⟨fun b _ => Nat.zero_le b, hchain⟩
      · intro i q j hq hj
        rw [chunkLoop_cons_le _ _ _ _ _ hle]
        cases i with
        | zero =>
          simp only [List.getElem?_cons_zero, Option.some.injEq] at hq hj
          subst hq
          subst hj
          have hne : cur ++ p ++ sepStr ≠ [] := by
            intro hcontra
            simp [sepStr, List.append_eq_nil] at hcontra
          obtain ⟨m, raw, rest, heq, hpre⟩ :=
            chunkLoop_head_extends doc ps (cur ++ p ++ sepStr) n hne
          rw [heq]
          refine ⟨mkChunk doc m raw, by simp, ?_⟩
          have hinf : p <:+: raw := by
            have h1 : p <:+: cur ++ p ++ sepStr := ⟨cur, sepStr, by simp⟩
            exact List.IsInfix.trans h1 hpre.isInfix
          exact infix_pyStrip_mono p raw hinf
        | succ i' =>
          simp only [List.getElem?_cons_succ] at hq hj
          exact hcov i' q j hq hj
    · by_cases hc : cur = []
      · obtain ⟨idx, hlen, hchain, hcov⟩ :=
          ih (overlapOf cur ++ sepStr ++ p ++ sepStr) n
        refine ⟨0 :: idx, by simp [hlen], ?_, ?_⟩
        · rw [List.chain'_cons']
          exact ⟨fun b _ => Nat.zero_le b, hchain⟩
        · intro i q j hq hj
          rw [chunkLoop_cons_gt _ _ _ _ _ hle, if_neg (by simp [hc]),
            if_neg (by simp [hc]), List.nil_append]
          cases i with
          | zero =>
            simp only [List.getElem?_cons_zero, Option.some.injEq] at hq hj
            subst hq
            subst hj
            have hne : overlapOf cur ++ sepStr ++ p ++ sepStr ≠ [] := by
              intro hcontra
              simp [sepStr, List.append_eq_nil] at hcontra
            obtain ⟨m, raw, rest, heq, hpre⟩ :=
              chunkLoop_head_extends doc ps
                (overlapOf cur ++ sepStr ++ p ++ sepStr) n hne
            rw [heq]
            refine ⟨mkChunk doc m raw, by simp, ?_⟩
            have hinf : p <:+: raw := by
              have h1 : p <:+: overlapOf cur ++ sepStr ++ p ++ sepStr :=
                ⟨overlapOf cur ++ sepStr, sepStr, by simp⟩
              exact List.IsInfix.trans h1 hpre.isInfix
            exact infix_pyStrip_mono p raw hinf
          | succ i' =>
            simp only [List.getElem?_cons_succ] at hq hj
            exact hcov i' q j hq hj
      · obtain ⟨idx, hlen, hchain, hcov⟩ :=
          ih (overlapOf cur ++ sepStr ++ p ++ sepStr) (n + 1)
        refine ⟨1 :: idx.map (· + 1), by simp [hlen], ?_, ?_⟩
        · rw [List.chain'_cons']
          constructor
          · intro b hb
            cases hidx : idx with
            | nil => simp [hidx] at hb
            | cons j0 idx' =>
              rw [hidx] at hb
              simp only [List.map_cons, List.head?_cons, Option.mem_def,
                Option.some.injEq] at hb
              omega
          · rw [List.chain'_map]
            exact hchain.imp (fun a b hab => by omega)
        · intro i q j hq hj
          rw [chunkLoop_cons_gt _ _ _ _ _ hle, if_pos hc, if_pos hc]
          cases i with
          | zero =>
            simp only [List.getElem?_cons_zero, Option.some.injEq] at hq hj
            subst hq
            subst hj
            have hne : overlapOf cur ++ sepStr ++ p ++ sepStr ≠ [] := by
              intro hcontra
              simp [sepStr, List.append_eq_nil] at hcontra
            obtain ⟨m, raw, rest, heq, hpre⟩ :=
              chunkLoop_head_extends doc ps
                (overlapOf cur ++ sepStr ++ p ++ sepStr) (n + 1) hne
            rw [heq]
            refine ⟨mkChunk doc m raw, by simp, ?_⟩
            have hinf : p <:+: raw := by
              have h1 : p <:+: overlapOf cur ++ sepStr ++ p ++ sepStr :=
                ⟨overlapOf cur ++ sepStr, sepStr, by simp⟩
              exact List.IsInfix.trans h1 hpre.isInfix
            exact infix_pyStrip_mono p raw hinf
          | succ i' =>
            simp only [List.getElem?_cons_succ] at hq hj
            rw [List.getElem?_map] at hj
            obtain ⟨j', hj', rfl⟩ := Option.map_eq_some'.mp hj
            obtain ⟨c, hcget, hcinf⟩ := hcov i' q j' hq hj'
            refine ⟨c, ?_, hcinf⟩
            simpa [List.singleton_append] using hcget

/-- Claim C6 counterexample: for the document with content `"a "` (one
paragraph with a trailing space), the paragraph `"a "` does not literally
appear in any chunk: the only chunk's content is the trimmed `"a"`. -/
theorem c6_counterexample :
    ∃ p ∈ splitSep ("a ".data : Str),
      ∀ c ∈ chunk_document ⟨"a ".data, [], [], []⟩,
        ¬(p <:+: c.content) := by decide

/-- Claim C6 (amended): for every document there is a monotone assignment of
the double-newline-separated paragraphs to chunk positions such that each
paragraph appears, up to trimming of leading and trailing whitespace, inside
the content of its assigned chunk — so every paragraph is covered and
paragraphs appear in their original document order across chunks.  (The
literal untrimmed paragraph can fail to appear only because chunk content
is the trimmed accumulator, as the counterexample shows.) -/
theorem c6_amended_paragraph_coverage (doc : RawDoc) :
    ∃ idx : List Nat, idx.length = (splitSep doc.content).length ∧
      idx.Chain' (· ≤ ·) ∧
      ∀ (i : Nat) (p : Str) (j : Nat),
        (splitSep doc.content)[i]? = some p → idx[i]? = some j →
          ∃ c, (chunk_document doc)[j]? = some c ∧ pyStrip p <:+: c.content :=
  chunkLoop_coverage doc (splitSep doc.content) [] 0

/-- Claim C6 witness: the amended statement evaluated on the concrete
document with content `"a "`. -/
theorem c6_witness :
    ∃ idx : List Nat, idx.length = (splitSep ("a ".data : Str)).length ∧
      idx.Chain' (· ≤ ·) ∧
      ∀ (i : Nat) (p : Str) (j : Nat),
        (splitSep ("a ".data : Str))[i]? = some p → idx[i]? = some j →
          ∃ c, (chunk_document ⟨"a ".data, [], [], []⟩)[j]? = some c ∧
            pyStrip p <:+: c.content :=
  c6_amended_paragraph_coverage ⟨"a ".data, [], [], []⟩
